import Mathlib

/-!
Shallow embedding of the multi-resolution tile cache and viewport scheduler of
CC_System/revui/views/MainWidget.py, together with proofs of the behavioural
properties stated in the accompanying design document.

Conventions of the embedding:
* Python floats are modelled as rational numbers; every float operation that
  appears in the modelled code (comparison, +, -, *, /, int() truncation) is
  exact on the inputs that occur, so no rounding behaviour is lost.
* Python dicts are modelled as association lists in insertion order with
  unique keys; dict membership and indexing go through List.lookup.
* Python sets are modelled as Finset.
* Python exceptions that can actually occur in the modelled fragment are
  modelled with Option (none = the exception escaped).
-/

-- Batteries marks rational arithmetic irreducible; restore kernel evaluation
-- so that concrete instances of the specification can be checked by decide.
attribute [local semireducible] Rat.mul Rat.add Rat.sub Rat.inv

/-! ## TileCache (MainWidget.py, lines 17-47)

An LRU cache from tile keys to decoded pixel buffers.  Keys are the tuples
(level, x_l0, y_l0, tile_size) built by WSIViewer.read_tile; buffers are
opaque and modelled by a natural number tag. -/

/-- Tile-cache keys: (level, x_l0, y_l0, tile_size) as built in read_tile. -/
abbrev CacheKey : Type := ℤ × ℤ × ℤ × ℤ

/-- State of the TileCache object: the dict self.cache (association list in
insertion order, unique keys), the recency list self.access_order (least
recently used at the head, most recently used at the tail) and the capacity
self.max_size. -/
structure TileCache where
  cache : List (CacheKey × ℕ)
  access_order : List CacheKey
  max_size : ℕ
deriving DecidableEq, Repr

/-- Python dict assignment d[key] = value: overwrite the binding in place when
the key is present, otherwise append the new binding (Python dicts preserve
insertion order). -/
def dictSet (l : List (CacheKey × ℕ)) (k : CacheKey) (v : ℕ) : List (CacheKey × ℕ) :=
  if (l.lookup k).isSome then l.map (fun p => if p.1 = k then (k, v) else p)
  else l ++ [(k, v)]

/-- Python dict.pop(key, None): drop the binding of key if present.  Since the
dict has unique keys, dropping every pair with that key is the same thing. -/
def dictPop (l : List (CacheKey × ℕ)) (k : CacheKey) : List (CacheKey × ℕ) :=
  l.filter (fun p => p.1 ≠ k)

/-- TileCache.__init__: empty dict and empty recency list. -/
def TileCache.init (max_size : ℕ) : TileCache :=
  { cache := [], access_order := [], max_size := max_size }

/-- TileCache.get (lines 24-33).  On a hit the key is moved to the
most-recently-used tail of access_order (list.remove, which drops the first
occurrence and swallows ValueError, then append) and the buffer is returned;
on a miss the state is unchanged and None is returned. -/
def TileCache.get (s : TileCache) (key : CacheKey) : Option ℕ × TileCache :=
  if (s.cache.lookup key).isSome then
    (s.cache.lookup key,
     { s with access_order := s.access_order.erase key ++ [key] })
  else (none, s)

/-- TileCache.put (lines 35-42).  A present key is a no-op.  For an absent
key, when the recency list has reached max_size the entry at index 0 (the
least recently used key) is popped and dropped from the dict, then the new
binding is stored and the key appended at the most-recently-used tail.
Python list.pop(0) raises IndexError on an empty list, which is reachable
only when max_size = 0; that exception is modelled as none. -/
def TileCache.put (s : TileCache) (key : CacheKey) (value : ℕ) : Option TileCache :=
  if (s.cache.lookup key).isSome then some s
  else if s.max_size ≤ s.access_order.length then
    match s.access_order with
    | [] => none
    | oldest :: rest =>
        some { s with
          cache := dictSet (dictPop s.cache oldest) key value,
          access_order := rest ++ [key] }
  else
    some { s with
      cache := dictSet s.cache key value,
      access_order := s.access_order ++ [key] }

/-- TileCache.clear (lines 44-47): drop the dict and the recency list. -/
def TileCache.clear (s : TileCache) : TileCache :=
  { s with cache := [], access_order := [] }

/-- Sequential insertion of a list of key/value pairs, left to right. -/
def TileCache.putAll (s : TileCache) : List (CacheKey × ℕ) → Option TileCache
  | [] => some s
  | (k, v) :: rest =>
      match s.put k v with
      | none => none
      | some s1 => s1.putAll rest

/-- Representation invariant of the cache (design document section 3): the
recency list has no duplicates and holds exactly the keys of the dict. -/
def TileCache.Inv (s : TileCache) : Prop :=
  s.access_order.Nodup ∧ (s.cache.map Prod.fst).Perm s.access_order

/-! ### Dictionary helper lemmas -/

theorem dictSet_of_absent (l : List (CacheKey × ℕ)) (k : CacheKey) (v : ℕ)
    (h : l.lookup k = none) : dictSet l k v = l ++ [(k, v)] := by
  simp [dictSet, h]

theorem lookup_eq_none_of_not_mem_keys {l : List (CacheKey × ℕ)} {k : CacheKey}
    (h : k ∉ l.map Prod.fst) : l.lookup k = none := by
  rw [List.lookup_eq_none_iff]
  intro p hp
  simp only [bne_iff_ne, ne_eq]
  intro hk
  exact h (List.mem_map.mpr ⟨p, hp, hk.symm⟩)

theorem not_mem_keys_of_lookup_eq_none {l : List (CacheKey × ℕ)} {k : CacheKey}
    (h : l.lookup k = none) : k ∉ l.map Prod.fst := by
  rw [List.lookup_eq_none_iff] at h
  intro hmem
  obtain ⟨p, hp, hk⟩ := List.mem_map.mp hmem
  have := h p hp
  simp [bne_iff_ne, hk] at this

theorem lookup_append_right_self {l : List (CacheKey × ℕ)} {k : CacheKey} {v : ℕ}
    (h : l.lookup k = none) : (l ++ [(k, v)]).lookup k = some v := by
  rw [List.lookup_append, h]
  simp

theorem lookup_append_single_ne {l : List (CacheKey × ℕ)} {k k2 : CacheKey} {v : ℕ}
    (h : k2 ≠ k) : (l ++ [(k, v)]).lookup k2 = l.lookup k2 := by
  rw [List.lookup_append]
  cases hl : l.lookup k2 with
  | some w => rfl
  | none =>
    have hbeq : (k2 == k) = false := by simp [h]
    simp [List.lookup_cons, hbeq]

theorem dictPop_lookup_self (l : List (CacheKey × ℕ)) (k : CacheKey) :
    (dictPop l k).lookup k = none := by
  rw [List.lookup_eq_none_iff]
  intro p hp
  have := List.of_mem_filter hp
  simp only [decide_eq_true_eq] at this
  simp [bne_iff_ne, Ne.symm this]

theorem dictPop_lookup_ne (l : List (CacheKey × ℕ)) (k k2 : CacheKey)
    (h : k2 ≠ k) : (dictPop l k).lookup k2 = l.lookup k2 := by
  induction l with
  | nil => rfl
  | cons p t ih =>
    by_cases hp : p.1 = k
    · have : (dictPop (p :: t) k) = dictPop t k := by
        simp [dictPop, List.filter_cons, hp]
      rw [this, ih, List.lookup_cons]
      have : (k2 == p.1) = false := by
        simp [hp, h]
      simp [this]
    · have : (dictPop (p :: t) k) = p :: dictPop t k := by
        simp [dictPop, List.filter_cons, hp]
      rw [this, List.lookup_cons, List.lookup_cons]
      cases hk2 : (k2 == p.1) <;> simp [hk2, ih]

theorem dictPop_of_not_mem_keys {l : List (CacheKey × ℕ)} {k : CacheKey}
    (h : k ∉ l.map Prod.fst) : dictPop l k = l := by
  induction l with
  | nil => rfl
  | cons q t ih =>
    simp only [List.map_cons, List.mem_cons, not_or] at h
    have hq : q.1 ≠ k := fun hh => h.1 hh.symm
    have hstep : dictPop (q :: t) k = q :: dictPop t k := by
      simp [dictPop, List.filter_cons, hq]
    rw [hstep, ih h.2]

theorem dictPop_cons_head {p : CacheKey × ℕ} {t : List (CacheKey × ℕ)}
    (h : p.1 ∉ t.map Prod.fst) : dictPop (p :: t) p.1 = t := by
  have hstep : dictPop (p :: t) p.1 = dictPop t p.1 := by
    simp [dictPop, List.filter_cons]
  rw [hstep, dictPop_of_not_mem_keys h]

theorem keys_dictSet_absent (l : List (CacheKey × ℕ)) (k : CacheKey) (v : ℕ)
    (h : l.lookup k = none) :
    (dictSet l k v).map Prod.fst = l.map Prod.fst ++ [k] := by
  rw [dictSet_of_absent l k v h]
  simp

/-- After a successful put of key, the key is present in the dict. -/
theorem put_lookup_isSome {s : TileCache} {key : CacheKey} {v : ℕ} {s1 : TileCache}
    (h : s.put key v = some s1) : (s1.cache.lookup key).isSome := by
  unfold TileCache.put at h
  split at h
  · rename_i hpres
    injection h with h2
    rw [← h2]
    exact hpres
  · rename_i hnotpres
    have hnone : s.cache.lookup key = none := by
      cases hl : s.cache.lookup key with
      | none => rfl
      | some w => exact absurd (by simp [hl]) hnotpres
    split at h
    · split at h
      · cases h
      · rename_i oldest rest heq
        injection h with h2
        rw [← h2]
        have hdp : (dictPop s.cache oldest).lookup key = none := by
          by_cases hko : key = oldest
          · rw [hko]
            exact dictPop_lookup_self _ _
          · rw [dictPop_lookup_ne _ _ _ hko]
            exact hnone
        rw [dictSet_of_absent _ _ _ hdp]
        simp [lookup_append_right_self hdp]
    · injection h with h2
      rw [← h2]
      rw [dictSet_of_absent _ _ _ hnone]
      simp [lookup_append_right_self hnone]

/-! ### Claim C8: put is idempotent in its key -/

/-- Claim C8: put is idempotent in its key.  If key is already present, put
leaves the whole cache object unchanged (same size, same stored buffer, same
recency order, all other entries intact, no eviction); in particular a second
put of the same key right after a successful one is a no-op. -/
theorem C8_put_idempotent :
    (∀ (s : TileCache) (key : CacheKey) (v2 : ℕ),
        (s.cache.lookup key).isSome → s.put key v2 = some s) ∧
    (∀ (s : TileCache) (key : CacheKey) (v1 v2 : ℕ) (s1 : TileCache),
        s.put key v1 = some s1 → s1.put key v2 = some s1) := by
  constructor
  · intro s key v2 h
    simp [TileCache.put, h]
  · intro s key v1 v2 s1 h
    simp [TileCache.put, put_lookup_isSome h]

/-- Witness for C8 at a concrete cache: inserting a fresh key into a capacity-2
cache succeeds, and a second put of the same key with another buffer is a
no-op on the resulting state. -/
theorem C8_put_idempotent_witness :
    (TileCache.init 2).put (0, 0, 0, 512) 7
      = some ⟨[((0, 0, 0, 512), 7)], [(0, 0, 0, 512)], 2⟩ ∧
    TileCache.put ⟨[((0, 0, 0, 512), 7)], [(0, 0, 0, 512)], 2⟩ (0, 0, 0, 512) 9
      = some ⟨[((0, 0, 0, 512), 7)], [(0, 0, 0, 512)], 2⟩ :=
  ⟨by decide,
   C8_put_idempotent.2 (TileCache.init 2) (0, 0, 0, 512) 7 9
     ⟨[((0, 0, 0, 512), 7)], [(0, 0, 0, 512)], 2⟩ (by decide)⟩

/-! ### Claim C1: put on a full cache evicts the LRU key -/

theorem putAll_append (s : TileCache) (l1 l2 : List (CacheKey × ℕ)) :
    s.putAll (l1 ++ l2) = (s.putAll l1).bind (fun s1 => s1.putAll l2) := by
  induction l1 generalizing s with
  | nil => simp [TileCache.putAll]
  | cons kv rest ih =>
    obtain ⟨k, v⟩ := kv
    simp only [List.cons_append, TileCache.putAll]
    cases h : s.put k v with
    | none => simp
    | some s1 => simp [ih]

/-- Characterization of filling an empty cache of positive capacity N with
pairwise-distinct keys: the state keeps exactly the last min(len, N) pairs,
in order, and the recency list is their key sequence. -/
theorem putAll_init_char (N : ℕ) (hN : 0 < N) (kvs : List (CacheKey × ℕ))
    (hnd : (kvs.map Prod.fst).Nodup) :
    (TileCache.init N).putAll kvs =
      some ⟨kvs.drop (kvs.length - N), (kvs.map Prod.fst).drop (kvs.length - N), N⟩ := by
  induction kvs using List.reverseRecOn with
  | nil => simp [TileCache.putAll, TileCache.init]
  | append_singleton l kv ih =>
    obtain ⟨k, v⟩ := kv
    have hnd2 := hnd
    rw [List.map_append, List.nodup_append] at hnd2
    have hndl : (l.map Prod.fst).Nodup := hnd2.1
    have hkl : k ∉ l.map Prod.fst := by
      intro hmem
      exact hnd2.2.2 hmem (by simp)
    rw [putAll_append, ih hndl]
    simp only [Option.some_bind]
    set n := l.length - N with hn
    have hkD : k ∉ (l.map Prod.fst).drop n := fun hmem =>
      hkl ((List.drop_sublist n (l.map Prod.fst)).subset hmem)
    have hlookupD : (l.drop n).lookup k = none := by
      apply lookup_eq_none_of_not_mem_keys
      rw [List.map_drop]
      exact hkD
    by_cases hlen : l.length < N
    · have hn0 : n = 0 := by omega
      have hlookupL : l.lookup k = none := lookup_eq_none_of_not_mem_keys hkl
      have hnotle : ¬ (N ≤ l.length) := by omega
      have harith : (l ++ [(k, v)]).length - N = 0 := by
        simp only [List.length_append, List.length_singleton]
        omega
      simp only [hn0, List.drop_zero, TileCache.putAll, TileCache.put, hlookupL,
        Option.isSome_none, Bool.false_eq_true, if_false,
        List.length_map, if_neg hnotle,
        dictSet_of_absent _ _ _ hlookupL, harith, List.map_append]
      simp
    · have hNle : N ≤ l.length := by omega
      have hlenD : ((l.map Prod.fst).drop n).length = N := by
        simp only [List.length_drop, List.length_map]
        omega
      have hfull : N ≤ ((l.map Prod.fst).drop n).length := by omega
      have hDne : (l.map Prod.fst).drop n ≠ [] := by
        intro hnil
        rw [hnil] at hlenD
        simp at hlenD
        omega
      cases hD : (l.map Prod.fst).drop n with
      | nil => exact absurd hD hDne
      | cons k0 ks =>
        have hDpair : ∃ d0 D2, l.drop n = d0 :: D2 ∧ d0.1 = k0 ∧ D2.map Prod.fst = ks := by
          cases hDp : l.drop n with
          | nil => rw [← List.map_drop, hDp] at hD; cases hD
          | cons d0 D2 =>
            rw [← List.map_drop, hDp] at hD
            simp only [List.map_cons, List.cons.injEq] at hD
            exact ⟨d0, D2, rfl, hD.1, hD.2⟩
        obtain ⟨d0, D2, hDp, hd0, hD2⟩ := hDpair
        have hndD : ((l.map Prod.fst).drop n).Nodup :=
          hndl.sublist (List.drop_sublist n (l.map Prod.fst))
        have hk0ks : k0 ∉ ks := by
          rw [hD] at hndD
          exact (List.nodup_cons.mp hndD).1
        have hpop : dictPop (l.drop n) d0.1 = D2 := by
          rw [hDp]
          apply dictPop_cons_head
          rw [hD2, hd0]
          exact hk0ks
        have hkD2 : D2.lookup k = none := by
          apply lookup_eq_none_of_not_mem_keys
          intro hmem
          apply hkD
          rw [hD, ← hD2]
          exact List.mem_cons_of_mem _ hmem
        simp only [TileCache.putAll, TileCache.put, hlookupD, Option.isSome_none,
          Bool.false_eq_true, if_false, if_pos hfull, hD, hDp]
        have hcond : N ≤ (k0 :: ks).length := by
          rw [← hD]
          exact hfull
        have harith : (l ++ [(k, v)]).length - N = n + 1 := by
          simp only [List.length_append, List.length_singleton]
          omega
        have hdrop1 : (l ++ [(k, v)]).drop (n + 1) = l.drop (n + 1) ++ [(k, v)] :=
          List.drop_append_of_le_length (by omega)
        have hdrop2 : l.drop (n + 1) = D2 := by
          have h11 := List.drop_drop 1 n l
          rw [← h11, hDp, List.drop_one, List.tail_cons]
        have hdropk1 : ((l ++ [(k, v)]).map Prod.fst).drop (n + 1)
            = (l.map Prod.fst).drop (n + 1) ++ [k] := by
          rw [List.map_append]
          exact List.drop_append_of_le_length (by simp; omega)
        have hdropk2 : (l.map Prod.fst).drop (n + 1) = ks := by
          have h11 := List.drop_drop 1 n (l.map Prod.fst)
          rw [← h11, hD, List.drop_one, List.tail_cons]
        rw [if_pos hcond, ← hd0, ← hDp, hpop, dictSet_of_absent _ _ _ hkD2,
          harith, hdrop1, hdrop2, hdropk1, hdropk2]
        simp [hlookupD]

/-- Association-list lookup finds the stored value when keys are unique. -/
theorem lookup_of_mem_nodup {l : List (CacheKey × ℕ)} {kv : CacheKey × ℕ}
    (hnd : (l.map Prod.fst).Nodup) (h : kv ∈ l) : l.lookup kv.1 = some kv.2 := by
  induction l with
  | nil => cases h
  | cons p t ih =>
    obtain ⟨pk, pv⟩ := p
    simp only [List.map_cons, List.nodup_cons] at hnd
    rcases List.mem_cons.mp h with h | h
    · rw [h]
      exact List.lookup_cons_self
    · have hne : kv.1 ≠ pk := by
        intro he
        exact hnd.1 (he ▸ List.mem_map.mpr ⟨kv, h, rfl⟩)
      rw [List.lookup_cons]
      have hbeq : (kv.1 == pk) = false := by simp [hne]
      rw [hbeq]
      exact ih hnd.2 h

/-- Claim C1: put of a fresh key into a cache holding max_size entries first
evicts the least recently used key (the head of access_order) and then
inserts the new key at the most-recently-used tail; consequently, filling an
empty cache of capacity N with N+1 distinct keys and no intervening get
leaves the first key absent and the other N keys present. -/
theorem C1_put_evicts_lru :
    (∀ (s : TileCache) (key : CacheKey) (value : ℕ) (oldest : CacheKey)
        (rest : List CacheKey),
        s.Inv →
        s.cache.lookup key = none →
        s.access_order = oldest :: rest →
        s.cache.length = s.max_size →
        ∃ s2, s.put key value = some s2 ∧
          s2.access_order = rest ++ [key] ∧
          s2.cache.lookup oldest = none ∧
          s2.cache.lookup key = some value ∧
          (∀ k2, k2 ≠ oldest → k2 ≠ key → s2.cache.lookup k2 = s.cache.lookup k2)) ∧
    (∀ (N : ℕ) (kvs : List (CacheKey × ℕ)) (k0 : CacheKey) (v0 : ℕ)
        (rest : List (CacheKey × ℕ)),
        0 < N →
        kvs.length = N + 1 →
        (kvs.map Prod.fst).Nodup →
        kvs = (k0, v0) :: rest →
        ∃ s2, (TileCache.init N).putAll kvs = some s2 ∧
          s2.cache.lookup k0 = none ∧
          (∀ kv ∈ rest, s2.cache.lookup kv.1 = some kv.2)) := by
  constructor
  · intro s key value oldest rest hinv hnone hao hsize
    have hlen : s.max_size ≤ s.access_order.length := by
      have := hinv.2.length_eq
      simp only [List.length_map] at this
      omega
    have hko : key ≠ oldest := by
      intro he
      have : oldest ∈ s.access_order := by
        rw [hao]
        exact List.mem_cons_self _ _
      have : oldest ∈ s.cache.map Prod.fst := hinv.2.mem_iff.mpr this
      exact not_mem_keys_of_lookup_eq_none hnone (he ▸ this)
    have hdp : (dictPop s.cache oldest).lookup key = none := by
      rw [dictPop_lookup_ne _ _ _ hko]
      exact hnone
    refine ⟨TileCache.mk (dictSet (dictPop s.cache oldest) key value)
      (rest ++ [key]) s.max_size, ?_, rfl, ?_, ?_, ?_⟩
    · simp only [TileCache.put, hnone, Option.isSome_none, Bool.false_eq_true,
        if_false, if_pos hlen, hao]
      rw [if_pos (hao ▸ hlen)]
    · rw [dictSet_of_absent _ _ _ hdp,
        lookup_append_single_ne (Ne.symm hko), dictPop_lookup_self]
    · rw [dictSet_of_absent _ _ _ hdp, lookup_append_right_self hdp]
    · intro k2 h2o h2k
      rw [dictSet_of_absent _ _ _ hdp, lookup_append_single_ne h2k,
        dictPop_lookup_ne _ _ _ h2o]
  · intro N kvs k0 v0 rest hN hlen hnd hcons
    have hchar := putAll_init_char N hN kvs hnd
    have hdrop : kvs.length - N = 1 := by omega
    refine ⟨_, hchar, ?_, ?_⟩
    · apply lookup_eq_none_of_not_mem_keys
      rw [List.map_drop, hdrop, hcons]
      simp only [List.map_cons, List.drop_one, List.tail_cons]
      rw [hcons] at hnd
      simp only [List.map_cons, List.nodup_cons] at hnd
      exact hnd.1
    · intro kv hkv
      have hdropped : kvs.drop 1 = rest := by
        rw [hcons, List.drop_one, List.tail_cons]
      have hndrest : (rest.map Prod.fst).Nodup := by
        rw [hcons] at hnd
        simp only [List.map_cons, List.nodup_cons] at hnd
        exact hnd.2
      simp only [hdrop, hdropped]
      exact lookup_of_mem_nodup hndrest hkv

/-- Witness for C1 at capacity 2: inserting three tiles with distinct keys
leaves the first absent and the last two present. -/
theorem C1_put_evicts_lru_witness :
    (0 : ℕ) < 2 ∧
    ∃ s2, (TileCache.init 2).putAll
        [((0, 0, 0, 512), 1), ((0, 512, 0, 512), 2), ((0, 0, 512, 512), 3)] = some s2 ∧
      s2.cache.lookup (0, 0, 0, 512) = none ∧
      (∀ kv ∈ [(((0 : ℤ), (512 : ℤ), (0 : ℤ), (512 : ℤ)), (2 : ℕ)),
               ((0, 0, 512, 512), 3)], s2.cache.lookup kv.1 = some kv.2) :=
  ⟨by decide,
   C1_put_evicts_lru.2 2
     [((0, 0, 0, 512), 1), ((0, 512, 0, 512), 2), ((0, 0, 512, 512), 3)]
     (0, 0, 0, 512) 1 [((0, 512, 0, 512), 2), ((0, 0, 512, 512), 3)]
     (by decide) (by decide) (by decide) rfl⟩

/-! ### Claim C7: get refreshes recency -/

/-- Claim C7: get on a present key returns the stored buffer and moves the key
to the most-recently-used tail, so the next eviction (which removes the head
of access_order) picks a different, less recently used key whenever any other
key is cached.  In the concrete scenario of the design document, inserting
A, B, C into a capacity-2 cache (which evicts A), then get(A) (a miss), then
inserting D, the key evicted by the insertion of D is B. -/
theorem C7_get_refreshes_recency :
    (∀ (s : TileCache) (key : CacheKey) (v : ℕ),
        s.Inv →
        s.cache.lookup key = some v →
        (s.get key).1 = some v ∧
        (s.get key).2.cache = s.cache ∧
        (s.get key).2.access_order = s.access_order.erase key ++ [key] ∧
        (∀ key2, key2 ∈ s.access_order → key2 ≠ key →
          (s.get key).2.access_order.head? ≠ some key)) ∧
    (∃ s3 s5,
      (TileCache.init 2).putAll
        [((0, 0, 0, 512), 1), ((0, 512, 0, 512), 2), ((0, 0, 512, 512), 3)] = some s3 ∧
      (s3.get (0, 0, 0, 512)).2.put (1, 0, 0, 512) 4 = some s5 ∧
      (s3.get (0, 0, 0, 512)).2.access_order.head? = some (0, 512, 0, 512) ∧
      s5.cache.lookup (0, 512, 0, 512) = none ∧
      (s5.cache.lookup (0, 0, 512, 512)).isSome = true ∧
      (s5.cache.lookup (1, 0, 0, 512)).isSome = true ∧
      s5.cache.lookup (0, 0, 0, 512) = none) := by
  constructor
  · intro s key v hinv hsome
    have hisSome : (s.cache.lookup key).isSome := by simp [hsome]
    refine ⟨?_, ?_, ?_, ?_⟩
    · simp [TileCache.get, hisSome, hsome]
    · simp [TileCache.get, hisSome]
    · simp [TileCache.get, hisSome]
    · intro key2 hmem hne
      simp only [TileCache.get, hisSome, if_true]
      have hkey2 : key2 ∈ s.access_order.erase key :=
        (List.mem_erase_of_ne hne).mpr hmem
      cases herase : s.access_order.erase key with
      | nil =>
        rw [herase] at hkey2
        cases hkey2
      | cons h t =>
        simp only [List.cons_append, List.head?_cons, ne_eq, Option.some.injEq]
        intro hh
        have hkmem : key ∈ s.access_order.erase key := by
          rw [herase]
          exact hh ▸ List.mem_cons_self _ _
        have hcontra := (List.Nodup.mem_erase_iff hinv.1).mp hkmem
        exact hcontra.1 rfl
  · refine ⟨⟨[((0, 512, 0, 512), 2), ((0, 0, 512, 512), 3)],
             [(0, 512, 0, 512), (0, 0, 512, 512)], 2⟩,
           ⟨[((0, 0, 512, 512), 3), ((1, 0, 0, 512), 4)],
             [(0, 0, 512, 512), (1, 0, 0, 512)], 2⟩,
           by decide, by decide, by decide, by decide, by decide, by decide, by decide⟩

/-- Cache state reached after inserting A, B, C into a capacity-2 cache:
holds B and C, least recently used first. -/
def exampleCache : TileCache :=
  ⟨[((0, 512, 0, 512), 2), ((0, 0, 512, 512), 3)],
   [(0, 512, 0, 512), (0, 0, 512, 512)], 2⟩

/-- Witness for C7: a get of the cached key B on the example cache returns its
buffer and moves B to the tail of the recency list. -/
theorem C7_get_refreshes_recency_witness :
    (exampleCache.get (0, 512, 0, 512)).1 = some 2 ∧
    (exampleCache.get (0, 512, 0, 512)).2.cache = exampleCache.cache ∧
    (exampleCache.get (0, 512, 0, 512)).2.access_order
      = exampleCache.access_order.erase (0, 512, 0, 512) ++ [(0, 512, 0, 512)] ∧
    (∀ key2, key2 ∈ exampleCache.access_order → key2 ≠ (0, 512, 0, 512) →
      (exampleCache.get (0, 512, 0, 512)).2.access_order.head? ≠ some (0, 512, 0, 512)) :=
  C7_get_refreshes_recency.1 exampleCache (0, 512, 0, 512) 2
    ⟨by decide, List.Perm.refl _⟩ (by decide)

/-! ## LevelSelector (MainWidget._maybe_change_level, lines 789-810) -/

/-- Hysteresis threshold: a screen scale above upper switches one level finer
(value 2.4 in the source, written as the reduced fraction 12/5). -/
def upper : ℚ := ⟨12, 5, by decide, by decide⟩

/-- Hysteresis threshold: a screen scale below lower switches one level
coarser (value 0.7 in the source, written as the reduced fraction 7/10). -/
def lower : ℚ := ⟨7, 10, by decide, by decide⟩

/-- Level update of MainWidget._maybe_change_level: one step finer when the
scale exceeds upper and a finer level exists, one step coarser when the
scale is below lower and a coarser level exists, otherwise unchanged.
max_level is level_count - 1 as computed in the source. -/
def maybe_change_level (view_scale : ℚ) (current_level max_level : ℕ) : ℕ :=
  if view_scale > upper ∧ 0 < current_level then current_level - 1
  else if view_scale < lower ∧ current_level < max_level then current_level + 1
  else current_level

/-- Claim C4: the level selector takes exactly the step the design document
describes, never more than one step per evaluation, and any sequence of
evaluations whose scales all lie inside the hysteresis band [0.7, 2.4]
causes zero level transitions. -/
theorem C4_hysteresis :
    (∀ (sc : ℚ) (L maxL : ℕ), sc > upper → 0 < L →
        maybe_change_level sc L maxL = L - 1) ∧
    (∀ (sc : ℚ) (L maxL : ℕ), sc < lower → L < maxL →
        maybe_change_level sc L maxL = L + 1) ∧
    (∀ (sc : ℚ) (L maxL : ℕ), ¬ (sc > upper ∧ 0 < L) → ¬ (sc < lower ∧ L < maxL) →
        maybe_change_level sc L maxL = L) ∧
    (∀ (sc : ℚ) (L maxL : ℕ),
        L - 1 ≤ maybe_change_level sc L maxL ∧ maybe_change_level sc L maxL ≤ L + 1) ∧
    (∀ (scales : List ℚ) (L maxL : ℕ),
        (∀ x ∈ scales, lower ≤ x ∧ x ≤ upper) →
        scales.foldl (fun l sc => maybe_change_level sc l maxL) L = L) := by
  have hlu : lower < upper := by decide
  refine ⟨?_, ?_, ?_, ?_, ?_⟩
  · intro sc L maxL hsc hL
    simp [maybe_change_level, hsc, hL]
  · intro sc L maxL hsc hL
    have hnot : ¬ (sc > upper ∧ 0 < L) := by
      rintro ⟨hgt, -⟩
      exact absurd (lt_trans hlu hgt) (not_lt.mpr (le_of_lt hsc))
    simp [maybe_change_level, hnot, hsc, hL]
  · intro sc L maxL h1 h2
    simp [maybe_change_level, h1, h2]
  · intro sc L maxL
    unfold maybe_change_level
    split
    · omega
    · split <;> omega
  · intro scales L maxL hband
    induction scales generalizing L with
    | nil => rfl
    | cons sc rest ih =>
      have hsc := hband sc (List.mem_cons_self _ _)
      have hstep : maybe_change_level sc L maxL = L := by
        have h1 : ¬ (sc > upper ∧ 0 < L) := by
          rintro ⟨hgt, -⟩
          exact absurd hgt (not_lt.mpr hsc.2)
        have h2 : ¬ (sc < lower ∧ L < maxL) := by
          rintro ⟨hlt, -⟩
          exact absurd hlt (not_lt.mpr hsc.1)
        simp [maybe_change_level, h1, h2]
      simp only [List.foldl_cons, hstep]
      exact ih L (fun x hx => hband x (List.mem_cons_of_mem _ hx))

/-- Witness for C4: a concrete oscillating scale sequence inside the band
(1.0, 1.5, 1.0, 1.5 as rationals) leaves level 1 of a 4-level pyramid
unchanged, and a scale of 3.0 takes exactly one step finer. -/
theorem C4_hysteresis_witness :
    ((3 : ℚ) > upper ∧ 0 < 1 ∧ maybe_change_level 3 1 3 = 0) ∧
    ((∀ x ∈ [(1 : ℚ), ⟨3, 2, by decide, by decide⟩, 1, ⟨3, 2, by decide, by decide⟩],
        lower ≤ x ∧ x ≤ upper) ∧
      [(1 : ℚ), ⟨3, 2, by decide, by decide⟩, 1,
        ⟨3, 2, by decide, by decide⟩].foldl (fun l sc => maybe_change_level sc l 3) 1 = 1) :=
  ⟨⟨by decide, by decide, C4_hysteresis.1 3 1 3 (by decide) (by decide)⟩,
   ⟨by decide, C4_hysteresis.2.2.2.2 _ 1 3 (by decide)⟩⟩

/-! ## CoordinateMapper (MainWidget._reload_scene_for_level, lines 812-834) -/

/-- Center remapping of MainWidget._reload_scene_for_level: the old-level
viewport center (cx, cy) is scaled into level-0 (native) coordinates with
the old downsample (cx0 = cx * old_ds) and back into the new level with the
new downsample (cx0 / new_ds). -/
def reload_center (old_ds new_ds : ℚ) (c : ℚ × ℚ) : ℚ × ℚ :=
  (c.1 * old_ds / new_ds, c.2 * old_ds / new_ds)

/-- Claim C5: the recenter operation maps the center c to c * old_ds / new_ds
componentwise, which keeps the same native (level-0) point under the viewport
center whenever the new downsample is nonzero; switching from downsample 4 to
downsample 8 and back returns the center exactly, in particular to within one
native pixel. -/
theorem C5_recenter_roundtrip :
    (∀ (old_ds new_ds : ℚ) (c : ℚ × ℚ), new_ds ≠ 0 →
        (reload_center old_ds new_ds c).1 * new_ds = c.1 * old_ds ∧
        (reload_center old_ds new_ds c).2 * new_ds = c.2 * old_ds) ∧
    (∀ c : ℚ × ℚ,
        reload_center 8 4 (reload_center 4 8 c) = c ∧
        |((reload_center 8 4 (reload_center 4 8 c)).1 - c.1) * 4| ≤ 1 ∧
        |((reload_center 8 4 (reload_center 4 8 c)).2 - c.2) * 4| ≤ 1) := by
  constructor
  · intro old_ds new_ds c h
    constructor
    · unfold reload_center
      field_simp
    · unfold reload_center
      field_simp
  · intro c
    have h1 : reload_center 8 4 (reload_center 4 8 c) = c := by
      obtain ⟨x, y⟩ := c
      unfold reload_center
      simp only [Prod.mk.injEq]
      constructor <;> ring
    refine ⟨h1, ?_, ?_⟩
    · rw [h1]
      simp
    · rw [h1]
      simp

/-- Witness for C5: with downsamples 4 and 8 and center (100, 200), the
remapped center corresponds to the same native point. -/
theorem C5_recenter_roundtrip_witness :
    ((8 : ℚ) ≠ 0) ∧
    (reload_center 4 8 (100, 200)).1 * 8 = 100 * 4 ∧
    (reload_center 4 8 (100, 200)).2 * 8 = 200 * 4 :=
  ⟨by decide,
   (C5_recenter_roundtrip.1 4 8 (100, 200) (by decide)).1,
   (C5_recenter_roundtrip.1 4 8 (100, 200) (by decide)).2⟩

/-! ## open_slide initial state (MainWidget.open_slide, lines 560-611) -/

/-- Keys of placed scene tiles and pending decode tasks: (level, x, y) in the
key order used by update_visible_tiles and _on_tile_loaded. -/
abbrev SceneKey : Type := ℤ × ℤ × ℤ

/-- Slice of the viewer state that MainWidget.open_slide re-initializes after
successfully constructing a WSIViewer: the active level, the scene tile dict
(only its keys are modelled) and the pending-task set. -/
structure OpenedView where
  current_level : ℤ
  wsi_tile_items : List SceneKey
  pending_tasks : Finset SceneKey
deriving DecidableEq

/-- MainWidget.open_slide, lines 578-583, after a successful open: the level
is set to min(2, level_count - 1) and both tile containers are cleared. -/
def open_slide (level_count : ℤ) : OpenedView :=
  { current_level := min 2 (level_count - 1),
    wsi_tile_items := [],
    pending_tasks := ∅ }

/-- Counterexample to claim C10 as stated: for an image with exactly one
pyramid level the formula min(2, levelCount - 1) gives level 0, so the
initial active level IS level 0, contrary to the claim that it is not. -/
theorem C10_initial_level_counterexample :
    (open_slide 1).current_level = min 2 (1 - 1) ∧
    (open_slide 1).current_level = 0 := by
  constructor <;> decide

/-- Claim C10 (amended): for every image successfully opened with at least one
level, the initial active level is min(2, levelCount - 1) — level 2 when at
least three levels exist, otherwise the coarsest available level — which is
nonzero whenever the image has at least two levels, and SceneTileItems and
PendingSet are empty immediately after opening. -/
theorem C10_initial_level (level_count : ℤ) (h : 1 ≤ level_count) :
    (open_slide level_count).current_level = min 2 (level_count - 1) ∧
    (3 ≤ level_count → (open_slide level_count).current_level = 2) ∧
    (level_count ≤ 3 → (open_slide level_count).current_level = level_count - 1) ∧
    (2 ≤ level_count → (open_slide level_count).current_level ≠ 0) ∧
    (open_slide level_count).wsi_tile_items = [] ∧
    (open_slide level_count).pending_tasks = ∅ := by
  refine ⟨rfl, ?_, ?_, ?_, rfl, rfl⟩
  · intro h2
    simp only [open_slide]
    omega
  · intro h2
    simp only [open_slide]
    omega
  · intro h2
    simp only [open_slide]
    omega

/-- Witness for C10 at a four-level image: the initial level is 2 and the
tile containers start empty. -/
theorem C10_initial_level_witness :
    (1 : ℤ) ≤ 4 ∧
    ((open_slide 4).current_level = min 2 (4 - 1) ∧
     (3 ≤ (4 : ℤ) → (open_slide 4).current_level = 2) ∧
     ((4 : ℤ) ≤ 3 → (open_slide 4).current_level = 4 - 1) ∧
     (2 ≤ (4 : ℤ) → (open_slide 4).current_level ≠ 0) ∧
     (open_slide 4).wsi_tile_items = [] ∧
     (open_slide 4).pending_tasks = ∅) :=
  ⟨by decide, C10_initial_level 4 (by decide)⟩

/-! ## ViewportScheduler (MainWidget.update_visible_tiles, lines 849-916, and
MainWidget._on_tile_loaded, lines 918-935) -/

/-- Constant self.TILE_SIZE = 512 (line 327). -/
def TILE_SIZE : ℤ := 512

/-- Constant self.MAX_TILES_PER_REQUEST = 256 (line 328). -/
def MAX_TILES_PER_REQUEST : ℕ := 256

/-- Constant self.MAX_TILES_ON_SCENE = 2500 (line 329). -/
def MAX_TILES_ON_SCENE : ℕ := 2500

/-- Viewer state touched by the scheduler: whether self.wsi_viewer is set,
the active level, the downsample of the active level, the scene rectangle
dimensions of the active level, the scene tile dict (keys in insertion
order) and the pending-task set. -/
structure ViewerState where
  has_viewer : Bool
  current_level : ℤ
  downsample : ℚ
  scene_w : ℚ
  scene_h : ℚ
  wsi_tile_items : List SceneKey
  pending_tasks : Finset SceneKey
deriving DecidableEq

/-- Axis-aligned rectangle in scene coordinates, as QRectF edges. -/
structure RectQ where
  left : ℚ
  top : ℚ
  right : ℚ
  bottom : ℚ
deriving DecidableEq

/-- QRectF.intersected with the scene rectangle (0, 0, w, h), componentwise.
When the rectangles do not overlap Qt returns a null rectangle; the
componentwise form used here is then also empty, which is all that
update_visible_tiles observes. -/
def RectQ.intersectScene (r : RectQ) (w h : ℚ) : RectQ :=
  ⟨max r.left 0, max r.top 0, min r.right w, min r.bottom h⟩

/-- QRectF.isEmpty: width or height is not positive. -/
def RectQ.emptyQ (r : RectQ) : Prop :=
  r.right ≤ r.left ∨ r.bottom ≤ r.top

instance (r : RectQ) : Decidable r.emptyQ := by
  unfold RectQ.emptyQ
  infer_instance

/-- Python int() applied to a float: truncation toward zero (exact on the
rationals that model the floats). -/
def pyInt (q : ℚ) : ℤ := q.num.tdiv q.den

/-- Python range(a, b, step) for a positive step: a, a + step, ... strictly
below b. -/
def pyRange (a b step : ℤ) : List ℤ :=
  (List.range ((b - a + step - 1).toNat / step.toNat)).map (fun i => a + i * step)

/-- Tile-aligned bounds of the clipped viewport rectangle (lines 858-862):
x0 and y0 are aligned down to the tile grid by Python floor division, x1 and
y1 are the truncated right and bottom edges. -/
def tileBounds (rect : RectQ) : ℤ × ℤ × ℤ × ℤ :=
  ((pyInt rect.left).fdiv TILE_SIZE * TILE_SIZE,
   (pyInt rect.top).fdiv TILE_SIZE * TILE_SIZE,
   pyInt rect.right,
   pyInt rect.bottom)

/-- Scene-item eviction passes of update_visible_tiles (lines 864-881) on the
already clipped rectangle: first the capacity guard drops the first third of
the placed tiles in insertion order when more than MAX_TILES_ON_SCENE are
present, then every tile whose level is not the active one or that lies
outside the one-tile margin around the aligned viewport box is removed. -/
def eviction_pass (s : ViewerState) (rect : RectQ) : List SceneKey :=
  let tile := TILE_SIZE
  let b := tileBounds rect
  let x0 := b.1
  let y0 := b.2.1
  let x1 := b.2.2.1
  let y1 := b.2.2.2
  let items1 :=
    if MAX_TILES_ON_SCENE < s.wsi_tile_items.length
    then s.wsi_tile_items.drop (s.wsi_tile_items.length / 3)
    else s.wsi_tile_items
  let margin := tile
  items1.filter (fun k =>
    decide (¬ (k.1 ≠ s.current_level ∨ k.2.1 + tile < x0 - margin ∨ k.2.1 > x1 + margin ∨
      k.2.2 + tile < y0 - margin ∨ k.2.2 > y1 + margin)))

/-- Candidate generation of update_visible_tiles (lines 883-896) on the
already clipped rectangle: every tile-aligned key of the active level inside
the aligned box that is neither placed (after the eviction passes) nor
pending, in raster order, paired with the squared euclidean distance of the
tile center to the viewport center. -/
def tile_candidates (s : ViewerState) (rect : RectQ) : List (ℚ × ℤ × ℤ) :=
  let tile := TILE_SIZE
  let b := tileBounds rect
  let x0 := b.1
  let y0 := b.2.1
  let x1 := b.2.2.1
  let y1 := b.2.2.2
  let center_x := (rect.left + rect.right) / 2
  let center_y := (rect.top + rect.bottom) / 2
  (pyRange y0 (y1 + tile) tile).flatMap (fun y =>
    (pyRange x0 (x1 + tile) tile).filterMap (fun x =>
      if (s.current_level, x, y) ∈ s.wsi_tile_items ∨
         (s.current_level, x, y) ∈ s.pending_tasks then none
      else
        let cx := (x : ℚ) + 256
        let cy := (y : ℚ) + 256
        some ((cx - center_x) * (cx - center_x) + (cy - center_y) * (cy - center_y), x, y)))

/-- Comparison used by candidates.sort(key=lambda t: t[0]): ascending squared
distance. -/
def distLE (a b : ℚ × ℤ × ℤ) : Prop := a.1 ≤ b.1

instance : DecidableRel distLE := fun a b => inferInstanceAs (Decidable (a.1 ≤ b.1))

instance : IsTotal (ℚ × ℤ × ℤ) distLE := ⟨fun a b => le_total a.1 b.1⟩

instance : IsTrans (ℚ × ℤ × ℤ) distLE := ⟨fun _ _ _ => le_trans⟩

/-- The sorted candidate list.  Python list.sort is a stable ascending sort;
the output of a stable sort is uniquely determined by the comparison, and
insertion sort with the reflexive order distLE is stable, so this models
the sort in the source exactly. -/
def sorted_candidates (s : ViewerState) (rect : RectQ) : List (ℚ × ℤ × ℤ) :=
  (tile_candidates s rect).insertionSort distLE

/-- One observable effect of the dispatch loop, in program order: a key is
added to pending_tasks, or a decode task for a key is handed to the executor
with the level-0 origin computed as int(x * ds), int(y * ds). -/
inductive DispatchEvent where
  | addPending (key : SceneKey)
  | submit (key : SceneKey) (x_l0 y_l0 : ℤ)
deriving DecidableEq

/-- Dispatch loop of update_visible_tiles (lines 900-916): walk the sorted
candidates, stop once MAX_TILES_PER_REQUEST tasks were submitted, and for
each remaining candidate add the key to pending_tasks and then submit the
decode task.  Returns the final pending set and the event trace. -/
def dispatch_loop (lv : ℤ) (ds : ℚ) :
    List (ℚ × ℤ × ℤ) → Finset SceneKey → ℕ → Finset SceneKey × List DispatchEvent
  | [], pending, _ => (pending, [])
  | c :: rest, pending, count =>
    if MAX_TILES_PER_REQUEST ≤ count then (pending, [])
    else
      let key : SceneKey := (lv, c.2.1, c.2.2)
      let r := dispatch_loop lv ds rest (insert key pending) (count + 1)
      (r.1, .addPending key ::
            .submit key (pyInt ((c.2.1 : ℚ) * ds)) (pyInt ((c.2.2 : ℚ) * ds)) :: r.2)

/-- The clipped viewport rectangle of one scheduling pass (lines 853-854). -/
def clipped (s : ViewerState) (rect0 : RectQ) : RectQ :=
  rect0.intersectScene s.scene_w s.scene_h

/-- The viewer state once the eviction passes have pruned the scene tiles. -/
def evicted_state (s : ViewerState) (rect0 : RectQ) : ViewerState :=
  { s with wsi_tile_items := eviction_pass s (clipped s rect0) }

/-- Candidates of one scheduling pass, in raster generation order. -/
def pass_candidates (s : ViewerState) (rect0 : RectQ) : List (ℚ × ℤ × ℤ) :=
  tile_candidates (evicted_state s rect0) (clipped s rect0)

/-- Candidates of one scheduling pass, sorted by ascending squared distance. -/
def pass_sorted (s : ViewerState) (rect0 : RectQ) : List (ℚ × ℤ × ℤ) :=
  sorted_candidates (evicted_state s rect0) (clipped s rect0)

/-- MainWidget.update_visible_tiles: clip the viewport rectangle to the scene,
bail out when there is no viewer or the clipped rectangle is empty, run the
eviction passes, generate and sort the candidates, and dispatch at most
MAX_TILES_PER_REQUEST decode tasks, adding each key to pending_tasks before
submitting its task.  Returns the new state and the dispatch trace. -/
def update_visible_tiles (s : ViewerState) (rect0 : RectQ) :
    ViewerState × List DispatchEvent :=
  if s.has_viewer = false then (s, [])
  else if (clipped s rect0).emptyQ then (s, [])
  else
    let out := dispatch_loop s.current_level s.downsample
      (pass_sorted s rect0) s.pending_tasks 0
    let s2 : ViewerState :=
      { s with
        wsi_tile_items := (evicted_state s rect0).wsi_tile_items
        pending_tasks := out.1 }
    (s2, out.2)

/-- MainWidget._on_tile_loaded (lines 918-935): drop the key from
pending_tasks unconditionally; discard the completion silently when the
buffer is invalid (modelled as none), the viewer is gone, the level is no
longer the active one, or the key is already materialized; otherwise place
the tile and record it. -/
def on_tile_loaded (s : ViewerState) (x y level : ℤ) (arr : Option ℕ) : ViewerState :=
  let key : SceneKey := (level, x, y)
  let s1 := { s with pending_tasks := s.pending_tasks.erase key }
  if arr = none then s1
  else if s1.has_viewer = false ∨ level ≠ s1.current_level then s1
  else if key ∈ s1.wsi_tile_items then s1
  else { s1 with wsi_tile_items := s1.wsi_tile_items ++ [key] }

/-- The submitted decode task (the closure of update_visible_tiles, lines
911-915): it calls WSIViewer.read_tile and then emits tile_loaded, which
delivers the completion to _on_tile_loaded.  The closure contains no
exception handler and read_tile contains none either, so when the region
read raises (the PyramidSource contract says readRegion fails with an
error), the emission on the next line is skipped, the completion handler
never runs, and the viewer state is left untouched.  A raising read is
modelled by read_result = none, a successful read by some buffer. -/
def run_task (s : ViewerState) (x y lv : ℤ) (read_result : Option ℕ) : ViewerState :=
  match read_result with
  | none => s
  | some arr => on_tile_loaded s x y lv (some arr)

/-! ### Claim C2: stale, invalid and duplicate completions are discarded -/

/-- on_tile_loaded never changes the active level or the viewer flag. -/
theorem on_tile_loaded_level (s : ViewerState) (x y level : ℤ) (arr : Option ℕ) :
    (on_tile_loaded s x y level arr).current_level = s.current_level ∧
    (on_tile_loaded s x y level arr).has_viewer = s.has_viewer := by
  unfold on_tile_loaded
  dsimp only
  split
  · exact ⟨rfl, rfl⟩
  · split
    · exact ⟨rfl, rfl⟩
    · split
      · exact ⟨rfl, rfl⟩
      · exact ⟨rfl, rfl⟩

/-- Claim C2: a completion whose buffer is invalid, whose level is not the
active level, or whose key is already materialized leaves SceneTileItems
untouched and places no tile; consequently, folding any sequence of
completions that all carry a level different from the active one over the
handler never changes SceneTileItems, so a completion dispatched before a
level change never appears after the active level has changed away from it. -/
theorem C2_stale_discard :
    (∀ (s : ViewerState) (x y level : ℤ) (arr : Option ℕ),
        arr = none ∨ level ≠ s.current_level ∨ (level, x, y) ∈ s.wsi_tile_items →
        (on_tile_loaded s x y level arr).wsi_tile_items = s.wsi_tile_items) ∧
    (∀ (s : ViewerState) (x y level : ℤ) (arr : Option ℕ),
        level ≠ s.current_level →
        (level, x, y) ∉ s.wsi_tile_items →
        (level, x, y) ∉ (on_tile_loaded s x y level arr).wsi_tile_items) ∧
    (∀ (s : ViewerState) (completions : List (ℤ × ℤ × ℤ × Option ℕ)),
        (∀ c ∈ completions, c.2.2.1 ≠ s.current_level) →
        (completions.foldl
          (fun st c => on_tile_loaded st c.1 c.2.1 c.2.2.1 c.2.2.2) s).wsi_tile_items
          = s.wsi_tile_items) := by
  have hbase : ∀ (s : ViewerState) (x y level : ℤ) (arr : Option ℕ),
      arr = none ∨ level ≠ s.current_level ∨ (level, x, y) ∈ s.wsi_tile_items →
      (on_tile_loaded s x y level arr).wsi_tile_items = s.wsi_tile_items := by
    intro s x y level arr h
    unfold on_tile_loaded
    dsimp only
    split
    · rfl
    · rename_i harr
      split
      · rfl
      · rename_i hguard
        split
        · rfl
        · rename_i hdup
          exfalso
          rcases h with h | h | h
          · exact harr h
          · exact hguard (Or.inr h)
          · exact hdup h
  refine ⟨hbase, ?_, ?_⟩
  · intro s x y level arr hlevel hmem
    rw [hbase s x y level arr (Or.inr (Or.inl hlevel))]
    exact hmem
  · intro s completions hlevels
    induction completions generalizing s with
    | nil => rfl
    | cons c rest ih =>
      obtain ⟨x, y, level, arr⟩ := c
      simp only [List.foldl_cons]
      have hstep := hbase s x y level arr
        (Or.inr (Or.inl (hlevels (x, y, level, arr) (List.mem_cons_self _ _))))
      have hlevel2 : (on_tile_loaded s x y level arr).current_level = s.current_level :=
        (on_tile_loaded_level s x y level arr).1
      rw [ih (on_tile_loaded s x y level arr) ?hrest, hstep]
      case hrest =>
        intro c2 hc2
        rw [hlevel2]
        exact hlevels c2 (List.mem_cons_of_mem _ hc2)

/-- Witness for C2: a completion for level 1 arriving while the active level
is 2 leaves the (empty) scene tile dict unchanged and does not appear in it. -/
theorem C2_stale_discard_witness :
    ((1 : ℤ) ≠ (2 : ℤ)) ∧
    (on_tile_loaded ⟨true, 2, 1, 1024, 1024, [], ∅⟩ 0 0 1 (some 5)).wsi_tile_items = [] ∧
    ((1 : ℤ), (0 : ℤ), (0 : ℤ)) ∉
      (on_tile_loaded ⟨true, 2, 1, 1024, 1024, [], ∅⟩ 0 0 1 (some 5)).wsi_tile_items :=
  ⟨by decide,
   C2_stale_discard.1 ⟨true, 2, 1, 1024, 1024, [], ∅⟩ 0 0 1 (some 5)
     (Or.inr (Or.inl (by decide))),
   C2_stale_discard.2.1 ⟨true, 2, 1, 1024, 1024, [], ∅⟩ 0 0 1 (some 5)
     (by decide) (by decide)⟩

/-! ### Claim C3: unconditional pending removal and retry eligibility -/

/-- Every key placed by an eviction pass was already placed beforehand. -/
theorem eviction_pass_subset (s : ViewerState) (rect : RectQ) :
    ∀ k ∈ eviction_pass s rect, k ∈ s.wsi_tile_items := by
  intro k hk
  unfold eviction_pass at hk
  dsimp only at hk
  have h1 := List.mem_of_mem_filter hk
  split at h1
  · exact (List.drop_sublist _ _).subset h1
  · exact h1

/-- A tile-grid position of the active level that is neither placed nor
pending is listed among the candidates of the scheduling pass. -/
theorem mem_tile_candidates_of (s : ViewerState) (rect : RectQ) (x y : ℤ)
    (hx : x ∈ pyRange (tileBounds rect).1 ((tileBounds rect).2.2.1 + TILE_SIZE) TILE_SIZE)
    (hy : y ∈ pyRange (tileBounds rect).2.1 ((tileBounds rect).2.2.2 + TILE_SIZE) TILE_SIZE)
    (hitem : (s.current_level, x, y) ∉ s.wsi_tile_items)
    (hpend : (s.current_level, x, y) ∉ s.pending_tasks) :
    ∃ c ∈ tile_candidates s rect, c.2.1 = x ∧ c.2.2 = y := by
  have hcond : ¬ ((s.current_level, x, y) ∈ s.wsi_tile_items ∨
      (s.current_level, x, y) ∈ s.pending_tasks) := by
    rintro (h | h)
    · exact hitem h
    · exact hpend h
  refine ⟨(((x : ℚ) + 256 - (rect.left + rect.right) / 2) *
            ((x : ℚ) + 256 - (rect.left + rect.right) / 2) +
           ((y : ℚ) + 256 - (rect.top + rect.bottom) / 2) *
            ((y : ℚ) + 256 - (rect.top + rect.bottom) / 2), x, y), ?_, rfl, rfl⟩
  unfold tile_candidates
  dsimp only
  rw [List.mem_flatMap]
  refine ⟨y, hy, ?_⟩
  rw [List.mem_filterMap]
  refine ⟨x, hx, ?_⟩
  rw [if_neg hcond]

/-- Claim C3 (amended): for every completion that is delivered to the
completion handler, the key is removed from pending_tasks unconditionally,
before any validity check, so a completion that carries an invalid buffer
leaves the scene tiles untouched but frees the key, which is then eligible
again: on a subsequent scheduling pass whose aligned grid covers the
position at the active level, the key shows up among the candidates.  A
region read that raises, however, delivers no completion at all (the task
closure has no exception handler), so its key stays in pending_tasks. -/
theorem C3_unconditional_pending_removal :
    (∀ (s : ViewerState) (x y lv : ℤ), run_task s x y lv none = s) ∧
    (∀ (s : ViewerState) (x y level : ℤ) (arr : Option ℕ),
        (on_tile_loaded s x y level arr).pending_tasks
          = s.pending_tasks.erase (level, x, y)) ∧
    (∀ (s : ViewerState) (x y level : ℤ),
        (on_tile_loaded s x y level none).wsi_tile_items = s.wsi_tile_items) ∧
    (∀ (s : ViewerState) (x y level : ℤ) (rect : RectQ),
        level = s.current_level →
        (level, x, y) ∉ s.wsi_tile_items →
        x ∈ pyRange (tileBounds rect).1 ((tileBounds rect).2.2.1 + TILE_SIZE) TILE_SIZE →
        y ∈ pyRange (tileBounds rect).2.1 ((tileBounds rect).2.2.2 + TILE_SIZE) TILE_SIZE →
        ∃ c ∈ tile_candidates
            (let s1 := on_tile_loaded s x y level none
             { s1 with wsi_tile_items := eviction_pass s1 rect }) rect,
          c.2.1 = x ∧ c.2.2 = y) := by
  refine ⟨fun s x y lv => rfl, ?_⟩
  have hpend : ∀ (s : ViewerState) (x y level : ℤ) (arr : Option ℕ),
      (on_tile_loaded s x y level arr).pending_tasks
        = s.pending_tasks.erase (level, x, y) := by
    intro s x y level arr
    unfold on_tile_loaded
    dsimp only
    split
    · rfl
    · split
      · rfl
      · split
        · rfl
        · rfl
  have hitems : ∀ (s : ViewerState) (x y level : ℤ),
      (on_tile_loaded s x y level none).wsi_tile_items = s.wsi_tile_items := by
    intro s x y level
    simp [on_tile_loaded]
  refine ⟨hpend, hitems, ?_⟩
  intro s x y level rect hlevel hmem hx hy
  have hlevel2 : (on_tile_loaded s x y level none).current_level = s.current_level :=
    (on_tile_loaded_level s x y level none).1
  have hmem2 : ((let s1 := on_tile_loaded s x y level none
      { s1 with wsi_tile_items := eviction_pass s1 rect }).current_level, x, y) ∉
      (let s1 := on_tile_loaded s x y level none
       { s1 with wsi_tile_items := eviction_pass s1 rect }).wsi_tile_items := by
    dsimp only
    rw [hlevel2, ← hlevel]
    intro hin
    have := eviction_pass_subset (on_tile_loaded s x y level none) rect _ hin
    rw [hitems] at this
    exact hmem this
  have hpend2 : ((let s1 := on_tile_loaded s x y level none
      { s1 with wsi_tile_items := eviction_pass s1 rect }).current_level, x, y) ∉
      (let s1 := on_tile_loaded s x y level none
       { s1 with wsi_tile_items := eviction_pass s1 rect }).pending_tasks := by
    dsimp only
    rw [hlevel2, ← hlevel, hpend]
    exact Finset.not_mem_erase _ _
  have h := mem_tile_candidates_of
    (let s1 := on_tile_loaded s x y level none
     { s1 with wsi_tile_items := eviction_pass s1 rect }) rect x y hx hy hmem2 hpend2
  exact h

/-- Witness for C3: after a failed decode of tile (0, 0) at level 0, the key
is out of the pending set and a scheduling pass over the viewport
(0, 0, 1024, 1024) of a 1024-square scene lists it as a candidate again. -/
theorem C3_unconditional_pending_removal_witness :
    ((0 : ℤ) = (ViewerState.mk true 0 1 1024 1024 [] {(0, 0, 0)}).current_level) ∧
    (((0 : ℤ), (0 : ℤ), (0 : ℤ)) ∉
      (ViewerState.mk true 0 1 1024 1024 [] {(0, 0, 0)}).wsi_tile_items) ∧
    (∃ c ∈ tile_candidates
        (let s1 := on_tile_loaded (ViewerState.mk true 0 1 1024 1024 [] {(0, 0, 0)}) 0 0 0 none
         { s1 with wsi_tile_items := eviction_pass s1 ⟨0, 0, 1024, 1024⟩ })
        ⟨0, 0, 1024, 1024⟩,
      c.2.1 = 0 ∧ c.2.2 = 0) :=
  ⟨by decide, by decide,
   C3_unconditional_pending_removal.2.2.2
     (ViewerState.mk true 0 1 1024 1024 [] {(0, 0, 0)}) 0 0 0 ⟨0, 0, 1024, 1024⟩
     (by decide) (by decide) (by decide) (by decide)⟩

/-- Counterexample to claim C3 as stated: a dispatched key whose region read
fails by raising delivers no completion, so it is not removed from
pending_tasks when the decode fails, and it is not eligible on a subsequent
scheduling pass covering its position (it is still pending, hence filtered
out of the candidates). -/
theorem C3_read_failure_counterexample :
    (run_task (ViewerState.mk true 0 1 1024 1024 [] {(0, 0, 0)}) 0 0 0 none).pending_tasks
      = {((0 : ℤ), (0 : ℤ), (0 : ℤ))} ∧
    ((0 : ℤ), (0 : ℤ), (0 : ℤ)) ∈
      (run_task (ViewerState.mk true 0 1 1024 1024 [] {(0, 0, 0)}) 0 0 0 none).pending_tasks ∧
    (∀ c ∈ tile_candidates
        (run_task (ViewerState.mk true 0 1 1024 1024 [] {(0, 0, 0)}) 0 0 0 none)
        ⟨0, 0, 1024, 1024⟩,
      ¬ (c.2.1 = 0 ∧ c.2.2 = 0)) := by
  exact ⟨by decide, by decide, by decide⟩

/-! ### Claim C6: priority-ordered, capped dispatch -/

/-- Keys of the submit events of a trace, in submission order. -/
def submittedKeys : List DispatchEvent → List SceneKey
  | [] => []
  | .addPending _ :: rest => submittedKeys rest
  | .submit k _ _ :: rest => k :: submittedKeys rest

/-- Trace shape of the dispatch loop: for each dispatched candidate the
pending insertion immediately followed by the task submission. -/
def pairTrace (lv : ℤ) (ds : ℚ) (l : List (ℚ × ℤ × ℤ)) : List DispatchEvent :=
  l.flatMap (fun c =>
    [DispatchEvent.addPending (lv, c.2.1, c.2.2),
     DispatchEvent.submit (lv, c.2.1, c.2.2)
       (pyInt ((c.2.1 : ℚ) * ds)) (pyInt ((c.2.2 : ℚ) * ds))])

/-- Every submission in a trace is preceded by the insertion of its key into
the pending set. -/
def addPrecedesSubmit (evs : List DispatchEvent) : Prop :=
  ∀ (i : ℕ) (k : SceneKey) (xl yl : ℤ),
    evs[i]? = some (DispatchEvent.submit k xl yl) →
    ∃ j, j < i ∧ evs[j]? = some (DispatchEvent.addPending k)

theorem dispatch_loop_events (lv : ℤ) (ds : ℚ) (cands : List (ℚ × ℤ × ℤ)) :
    ∀ (pending : Finset SceneKey) (count : ℕ),
    (dispatch_loop lv ds cands pending count).2
      = pairTrace lv ds (cands.take (MAX_TILES_PER_REQUEST - count)) := by
  induction cands with
  | nil =>
    intro pending count
    simp [dispatch_loop, pairTrace]
  | cons c rest ih =>
    intro pending count
    unfold dispatch_loop
    dsimp only
    split
    · rename_i hcount
      have h0 : MAX_TILES_PER_REQUEST - count = 0 := by omega
      simp [h0, pairTrace]
    · rename_i hcount
      have h1 : MAX_TILES_PER_REQUEST - count
          = (MAX_TILES_PER_REQUEST - (count + 1)) + 1 := by omega
      rw [h1, List.take_succ_cons, ih (insert (lv, c.2.1, c.2.2) pending) (count + 1)]
      simp [pairTrace]

theorem dispatch_loop_pending (lv : ℤ) (ds : ℚ) (cands : List (ℚ × ℤ × ℤ)) :
    ∀ (pending : Finset SceneKey) (count : ℕ),
    (dispatch_loop lv ds cands pending count).1
      = pending ∪ ((cands.take (MAX_TILES_PER_REQUEST - count)).map
          (fun c => ((lv, c.2.1, c.2.2) : SceneKey))).toFinset := by
  induction cands with
  | nil =>
    intro pending count
    simp [dispatch_loop]
  | cons c rest ih =>
    intro pending count
    unfold dispatch_loop
    dsimp only
    split
    · rename_i hcount
      have h0 : MAX_TILES_PER_REQUEST - count = 0 := by omega
      simp [h0]
    · rename_i hcount
      have h1 : MAX_TILES_PER_REQUEST - count
          = (MAX_TILES_PER_REQUEST - (count + 1)) + 1 := by omega
      rw [h1, List.take_succ_cons, ih (insert (lv, c.2.1, c.2.2) pending) (count + 1)]
      rw [List.map_cons, List.toFinset_cons, Finset.insert_union, Finset.union_insert]

theorem submittedKeys_pairTrace (lv : ℤ) (ds : ℚ) (l : List (ℚ × ℤ × ℤ)) :
    submittedKeys (pairTrace lv ds l)
      = l.map (fun c => ((lv, c.2.1, c.2.2) : SceneKey)) := by
  induction l with
  | nil => rfl
  | cons c rest ih =>
    simp only [pairTrace, List.flatMap_cons, List.cons_append] at ih ⊢
    simp [submittedKeys, ih, pairTrace]

theorem pairTrace_addPrecedesSubmit (lv : ℤ) (ds : ℚ) (l : List (ℚ × ℤ × ℤ)) :
    addPrecedesSubmit (pairTrace lv ds l) := by
  induction l with
  | nil =>
    intro i k xl yl h
    simp [pairTrace] at h
  | cons c rest ih =>
    intro i k xl yl h
    match i with
    | 0 =>
      simp only [pairTrace, List.flatMap_cons, List.cons_append,
        List.getElem?_cons_zero, Option.some.injEq] at h
      cases h
    | 1 =>
      refine ⟨0, Nat.zero_lt_one, ?_⟩
      simp only [pairTrace, List.flatMap_cons, List.cons_append,
        List.getElem?_cons_succ, List.getElem?_cons_zero, Option.some.injEq] at h
      cases h
      simp [pairTrace]
    | (n + 2) =>
      simp only [pairTrace, List.flatMap_cons, List.cons_append,
        List.getElem?_cons_succ] at h
      obtain ⟨j, hj, hjad⟩ := ih n k xl yl h
      refine ⟨j + 2, by omega, ?_⟩
      simpa [pairTrace, List.getElem?_cons_succ] using hjad

/-- Every candidate of a scheduling pass is a key of the active level that is
neither placed nor pending. -/
theorem tile_candidates_spec (s : ViewerState) (rect : RectQ) :
    ∀ c ∈ tile_candidates s rect,
      ((s.current_level, c.2.1, c.2.2) : SceneKey) ∉ s.wsi_tile_items ∧
      ((s.current_level, c.2.1, c.2.2) : SceneKey) ∉ s.pending_tasks := by
  intro c hc
  unfold tile_candidates at hc
  dsimp only at hc
  rw [List.mem_flatMap] at hc
  obtain ⟨y, hy, hc⟩ := hc
  rw [List.mem_filterMap] at hc
  obtain ⟨x, hx, hc⟩ := hc
  by_cases hcond : (s.current_level, x, y) ∈ s.wsi_tile_items ∨
      (s.current_level, x, y) ∈ s.pending_tasks
  · rw [if_pos hcond] at hc
    cases hc
  · rw [if_neg hcond] at hc
    injection hc with hc
    rw [← hc]
    exact ⟨fun h => hcond (Or.inl h), fun h => hcond (Or.inr h)⟩

/-- Key dispatched for a candidate triple at the active level. -/
def dispatchKey (lv : ℤ) (c : ℚ × ℤ × ℤ) : SceneKey := (lv, c.2.1, c.2.2)

/-- Postcondition of one scheduling pass of update_visible_tiles: candidates
are exactly keys that are neither placed nor pending; the dispatch trace is
the sorted candidate prefix of length at most MAX_TILES_PER_REQUEST, in
ascending squared-distance order; the sorted order is a permutation of the
raster-generated candidates that keeps ties in their stable raster order;
the pending set grows by exactly the submitted keys; and every submission is
preceded by the pending insertion of its key. -/
def C6Post (s : ViewerState) (rect0 : RectQ) : Prop :=
  (∀ c ∈ pass_candidates s rect0,
      dispatchKey s.current_level c ∉ (evicted_state s rect0).wsi_tile_items ∧
      dispatchKey s.current_level c ∉ s.pending_tasks) ∧
  (update_visible_tiles s rect0).2
    = pairTrace s.current_level s.downsample
        ((pass_sorted s rect0).take MAX_TILES_PER_REQUEST) ∧
  submittedKeys (update_visible_tiles s rect0).2
    = ((pass_sorted s rect0).take MAX_TILES_PER_REQUEST).map
        (dispatchKey s.current_level) ∧
  (submittedKeys (update_visible_tiles s rect0).2).length ≤ MAX_TILES_PER_REQUEST ∧
  List.Pairwise distLE ((pass_sorted s rect0).take MAX_TILES_PER_REQUEST) ∧
  (pass_sorted s rect0).Perm (pass_candidates s rect0) ∧
  (∀ a b, List.Sublist [a, b] (pass_candidates s rect0) → distLE a b →
      List.Sublist [a, b] (pass_sorted s rect0)) ∧
  (update_visible_tiles s rect0).1.pending_tasks
    = s.pending_tasks ∪ (submittedKeys (update_visible_tiles s rect0).2).toFinset ∧
  addPrecedesSubmit (update_visible_tiles s rect0).2

/-- One scheduling pass with a viewer and a nonempty clipped rectangle
reduces to the eviction passes plus the dispatch loop over the sorted
candidates. -/
theorem update_visible_tiles_eq (s : ViewerState) (rect0 : RectQ)
    (hv : s.has_viewer = true) (hne : ¬ (clipped s rect0).emptyQ) :
    update_visible_tiles s rect0 =
      ({ s with
         wsi_tile_items := (evicted_state s rect0).wsi_tile_items
         pending_tasks := (dispatch_loop s.current_level s.downsample
           (pass_sorted s rect0) s.pending_tasks 0).1 },
       (dispatch_loop s.current_level s.downsample
         (pass_sorted s rect0) s.pending_tasks 0).2) := by
  unfold update_visible_tiles
  rw [hv]
  simp only [Bool.true_eq_false, if_false, if_neg hne]

/-- Claim C6: on every scheduling pass the candidates (required keys neither
placed nor pending) are dispatched in ascending order of squared euclidean
distance from the tile center to the viewport center, ties kept in stable
raster order, at most MAX_TILES_PER_REQUEST per pass, and each key is added
to the pending set before its decode task is submitted. -/
theorem C6_priority_dispatch (s : ViewerState) (rect0 : RectQ)
    (hv : s.has_viewer = true) (hne : ¬ (clipped s rect0).emptyQ) :
    C6Post s rect0 := by
  have heq := update_visible_tiles_eq s rect0 hv hne
  have hsorted : List.Pairwise distLE (pass_sorted s rect0) :=
    List.sorted_insertionSort distLE _
  have h2 : (update_visible_tiles s rect0).2
      = pairTrace s.current_level s.downsample
          ((pass_sorted s rect0).take MAX_TILES_PER_REQUEST) := by
    rw [heq]
    dsimp only
    rw [dispatch_loop_events]
    simp
  have h3 : submittedKeys (update_visible_tiles s rect0).2
      = ((pass_sorted s rect0).take MAX_TILES_PER_REQUEST).map
          (dispatchKey s.current_level) := by
    rw [h2, submittedKeys_pairTrace]
    rfl
  refine ⟨?_, h2, h3, ?_, ?_, ?_, ?_, ?_, ?_⟩
  · intro c hc
    exact tile_candidates_spec (evicted_state s rect0) (clipped s rect0) c hc
  · rw [h3, List.length_map, List.length_take]
    exact Nat.min_le_left _ _
  · exact List.Pairwise.sublist (List.take_sublist _ _) hsorted
  · exact List.perm_insertionSort distLE _
  · intro a b hsub hle
    exact List.pair_sublist_insertionSort hle hsub
  · rw [h3, heq]
    dsimp only
    rw [dispatch_loop_pending]
    simp only [Nat.sub_zero]
    rfl
  · rw [h2]
    exact pairTrace_addPrecedesSubmit _ _ _

/-- A concrete viewer used to witness the scheduler claims: a 1024-square
scene at level 0 with downsample 1, no placed tiles and no pending tasks. -/
def exampleViewer : ViewerState := ⟨true, 0, 1, 1024, 1024, [], ∅⟩

/-- A concrete viewport rectangle covering the whole example scene. -/
def exampleRect : RectQ := ⟨0, 0, 1024, 1024⟩

/-- Witness for C6 on the example viewer and viewport. -/
theorem C6_priority_dispatch_witness :
    exampleViewer.has_viewer = true ∧
    ¬ (clipped exampleViewer exampleRect).emptyQ ∧
    C6Post exampleViewer exampleRect :=
  ⟨rfl, by decide, C6_priority_dispatch exampleViewer exampleRect rfl (by decide)⟩
